import Mathlib

/-!
Verification of the `fsplit.py` file splitter.

The program splits one source file into `num_chunks` contiguous chunk
files.  We embed its functions shallowly:

* byte strings are `List Nat`;
* the source file descriptor is a `SrcFile` (immutable content plus a
  read position); `os_read` models `os.read` on it (it may return fewer
  bytes than requested when the file is exhausted);
* `fill_chunk` models the copy loop of `fill_chunk`; since the Python
  loop `while bytes_left > 0` can spin forever when `os.read` keeps
  returning zero bytes, the loop is given explicit fuel and an
  `Outcome.spins` result stands for running out of fuel;
* `calculate_chunk_sizes` models the planner: Python's `//` on ints is
  flooring division, i.e. `Int.fdiv`, and division by zero raises
  `ZeroDivisionError`;
* `process_file_to_chunks` models the orchestration.  Note that the
  Python function stats `file_name` for the sizes but opens the
  module-level `args.filename` for the bytes, so the embedding takes the
  stat size and the content of the args file as separate parameters;
* `validate_args` models the CLI validation, recording which filesystem
  checks were performed and whether the small-chunk warning was printed.

Raised Python exceptions are modelled by `PyError`: `.exception` is the
bare `raise Exception()` in `fill_chunk`, `.valueError` and `.osError`
are the explicit raises in `validate_args`, and `.zeroDivisionError` is
the interpreter error from `file_size // 0`.
-/

namespace FSplit

/-- Byte strings; the byte values themselves are opaque naturals. -/
abbrev Bytes := List Nat

/-- `READSZ = 1048576` (1 MiB), the copy block size. -/
def READSZ : Nat := 1048576

/-- `MIN_CHUNK_SZ = 10485760` (10 MiB), the warning threshold. -/
def MIN_CHUNK_SZ : Nat := 10485760

/-- `MIN_CHUNKS_ALLOWED = 2`. -/
def MIN_CHUNKS_ALLOWED : Nat := 2

/-- `MAX_CHUNKS_ALLOWED = 999`. -/
def MAX_CHUNKS_ALLOWED : Nat := 999

/-- The exceptions the program can raise. -/
inductive PyError where
  | exception
  | zeroDivisionError
  | valueError (msg : String)
  | osError (msg : String)
deriving DecidableEq, Repr

/-- Result of running a (possibly diverging) piece of the program:
it raised an exception, it exhausted its fuel (the Python loop would
still be running), or it finished with a value. -/
inductive Outcome (α : Type) where
  | raised (e : PyError)
  | spins
  | done (a : α)
deriving DecidableEq, Repr

/-- The source file descriptor: the file's (read-only) content and the
current read position. -/
structure SrcFile where
  content : Bytes
  pos : Nat
deriving DecidableEq, Repr

/-- `os.read(fd, n)`: returns at most `n` bytes starting at the current
position and advances the position by the number of bytes actually
read (zero once the file is exhausted). -/
def os_read (f : SrcFile) (n : Nat) : Bytes × SrcFile :=
  let data := (f.content.drop f.pos).take n
  (data, ⟨f.content, f.pos + data.length⟩)

/-- One iteration of the `while bytes_left > 0` loop of `fill_chunk`:
choose `rw_amount` (`READSZ` if at least that much is left, else the
remainder), read, and subtract the number of bytes transferred.
Returns the advanced source descriptor and the new `bytes_left`. -/
def fill_chunk_step (f : SrcFile) (bytes_left : Nat) : SrcFile × Nat :=
  let rw_amount := if READSZ ≤ bytes_left then READSZ else bytes_left
  let r := os_read f rw_amount
  (r.2, bytes_left - r.1.length)

/-- The `fill_chunk` loop with fuel.  Returns `none` when the fuel runs
out before `bytes_left` reaches zero (the Python loop is still
spinning), otherwise the bytes written to the destination and the
advanced source descriptor. -/
def fill_chunk_loop : Nat → SrcFile → Nat → Option (Bytes × SrcFile)
  | _, f, 0 => some ([], f)
  | 0, _, _ + 1 => none
  | fuel + 1, f, b + 1 =>
      let rw_amount := if READSZ ≤ b + 1 then READSZ else b + 1
      let r := os_read f rw_amount
      match fill_chunk_loop fuel r.2 (b + 1 - r.1.length) with
      | none => none
      | some (rest, f2) => some (r.1 ++ rest, f2)

/-- `fill_chunk(src_file, dest_file, chunk_length)`: raises the bare
`Exception()` when `chunk_length` is falsy (zero), otherwise runs the
copy loop.  The returned `Bytes` are the destination file's content. -/
def fill_chunk (fuel : Nat) (f : SrcFile) (chunk_length : Nat) :
    Outcome (Bytes × SrcFile) :=
  if chunk_length = 0 then .raised .exception
  else
    match fill_chunk_loop fuel f chunk_length with
    | none => .spins
    | some r => .done r

/-- `calculate_chunk_sizes`: `chunk_length = file_size // num_chunks`
(Python's flooring division on ints, `Int.fdiv`; `// 0` raises
`ZeroDivisionError`), and
`last_chunk_length = file_size - ((num_chunks - 1) * chunk_length)`.
The `file_size` comes from `os.stat(file_name).st_size`, which we take
as a parameter. -/
def calculate_chunk_sizes (file_size : Nat) (num_chunks : Int) :
    Except PyError (Int × Int) :=
  if num_chunks = 0 then .error .zeroDivisionError
  else
    let chunk_length := Int.fdiv (file_size : Int) num_chunks
    let last_chunk_length := (file_size : Int) - (num_chunks - 1) * chunk_length
    .ok (chunk_length, last_chunk_length)

/-- Python's `"\x7b:03d\x7d".format(n)` for a natural number: the decimal
digits left-padded with zeros to width 3. -/
def format03d (n : Nat) : String :=
  let s := toString n
  if s.length < 3 then String.mk (List.replicate (3 - s.length) '0') ++ s else s

/-- `"\x7bfilename\x7d.CHUNK\x7bchunknum:03d\x7d".format(...)`. -/
def chunk_name (final_file_name : String) (chunknum : Nat) : String :=
  final_file_name ++ ".CHUNK" ++ format03d chunknum

/-- The chunk length used at each iteration of
`for chunk in range(1, num_chunks + 1)`: the i-th chunk (0-based `i`,
`chunk = i + 1`) gets `last_chunk_size` when `chunk == num_chunks`,
else `chunk_size`. -/
def chunk_lengths (k : Nat) (chunk_size last_chunk_size : Nat) : List Nat :=
  (List.range k).map (fun i => if i + 1 = k then last_chunk_size else chunk_size)

/-- The chunk-writing loop of `process_file_to_chunks`: for each planned
length open a fresh chunk file and `fill_chunk` it from the shared
source descriptor.  Collects each chunk file's content. -/
def write_chunks (fuel : Nat) : SrcFile → List Nat → Outcome (List Bytes × SrcFile)
  | f, [] => .done ([], f)
  | f, len :: rest =>
      match fill_chunk fuel f len with
      | .raised e => .raised e
      | .spins => .spins
      | .done (written, f2) =>
          match write_chunks fuel f2 rest with
          | .raised e => .raised e
          | .spins => .spins
          | .done (chunks, f3) => .done (written :: chunks, f3)

/-- `process_file_to_chunks(file_name, num_chunks, outputdir)`.
`stat_size` is `os.stat(file_name).st_size` (used for the plan), while
`args_content` is the content of `args.filename`, the file the function
actually opens (`os.open(args.filename, os.O_RDONLY | os.O_BINARY)`) and
reads the bytes from; the source position starts at 0.  For
`num_chunks ≥ 1` both planned sizes are non-negative, so taking `toNat`
is faithful; for `num_chunks ≤ 0` either the planner raises or the
`range` is empty and the sizes are never used. -/
def process_file_to_chunks (fuel : Nat) (stat_size : Nat) (num_chunks : Int)
    (args_content : Bytes) : Outcome (List Bytes × SrcFile) :=
  match calculate_chunk_sizes stat_size num_chunks with
  | .error e => .raised e
  | .ok sizes =>
      write_chunks fuel ⟨args_content, 0⟩
        (chunk_lengths num_chunks.toNat sizes.1.toNat sizes.2.toNat)

/-- The filesystem facts `validate_args` can observe. -/
structure Fs where
  fileExists : Bool
  isFile : Bool
  readable : Bool
  fileSize : Nat
  dirExists : Bool
  isDir : Bool
  dirWritable : Bool
deriving DecidableEq, Repr

/-- The filesystem accesses `validate_args` can perform, in order of
appearance in the code. -/
inductive FsOp where
  | pathExists
  | isFileCheck
  | readAccess
  | statFile
  | dirExistsCheck
  | isDirCheck
  | writeAccess
deriving DecidableEq, Repr

instance {ε α : Type} [DecidableEq ε] [DecidableEq α] : DecidableEq (Except ε α) :=
  fun a b =>
  match a, b with
  | .ok x, .ok y =>
      if h : x = y then isTrue (by rw [h])
      else isFalse (by intro hh; injection hh; exact h (by assumption))
  | .ok _, .error _ => isFalse (fun h => Except.noConfusion h)
  | .error _, .ok _ => isFalse (fun h => Except.noConfusion h)
  | .error e, .error e2 =>
      if h : e = e2 then isTrue (by rw [h])
      else isFalse (by intro hh; injection hh; exact h (by assumption))

/-- Result of `validate_args`: the raised error (if any), the trace of
filesystem accesses performed, and whether the small-chunk warning was
printed. -/
structure ValidateResult where
  result : Except PyError Unit
  accesses : List FsOp
  warned : Bool
deriving DecidableEq, Repr

/-- Python truthiness of the optional `output_dir` string (`None` and
`""` are falsy). -/
def str_option_truthy : Option String → Bool
  | none => false
  | some s => !s.isEmpty

/-- `validate_args(chunk_count, file_name, output_dir)`: the two
chunk-count checks come first (no filesystem access), then existence /
regular-file / readability of `file_name`, then the
`st_size // chunk_count < MIN_CHUNK_SZ` warning, then the output-dir
checks when `output_dir` is truthy. -/
def validate_args (fs : Fs) (chunk_count : Int) (file_name : String)
    (output_dir : Option String) : ValidateResult :=
  if chunk_count < (MIN_CHUNKS_ALLOWED : Int) then
    ⟨.error (.valueError "--numchunks must be 2 or greater"), [], false⟩
  else if (MAX_CHUNKS_ALLOWED : Int) < chunk_count then
    ⟨.error (.valueError "Maximum number of chunks allowed is 999"), [], false⟩
  else if !fs.fileExists then
    ⟨.error (.osError ("File " ++ file_name ++ " does not exist")),
      [.pathExists], false⟩
  else if !fs.isFile then
    ⟨.error (.osError (file_name ++ " is not a file")),
      [.pathExists, .isFileCheck], false⟩
  else if !fs.readable then
    ⟨.error (.osError ("You haven't permissions to read " ++ file_name)),
      [.pathExists, .isFileCheck, .readAccess], false⟩
  else
    let warned := decide (fs.fileSize / chunk_count.toNat < MIN_CHUNK_SZ)
    let baseOps : List FsOp := [.pathExists, .isFileCheck, .readAccess, .statFile]
    if str_option_truthy output_dir then
      let d := output_dir.getD ""
      if !fs.dirExists then
        ⟨.error (.osError ("Path " ++ d ++ " does not exist")),
          baseOps ++ [.dirExistsCheck], warned⟩
      else if !fs.isDir then
        ⟨.error (.osError (d ++ " is not a directory")),
          baseOps ++ [.dirExistsCheck, .isDirCheck], warned⟩
      else if !fs.dirWritable then
        ⟨.error (.osError ("You haven't permissions to write to " ++ d)),
          baseOps ++ [.dirExistsCheck, .isDirCheck, .writeAccess], warned⟩
      else
        ⟨.ok (), baseOps ++ [.dirExistsCheck, .isDirCheck, .writeAccess], warned⟩
    else
      ⟨.ok (), baseOps, warned⟩

/-- Specification helper: cut `src` into consecutive pieces of the given
lengths. -/
def take_chunks (src : Bytes) : List Nat → List Bytes
  | [] => []
  | l :: ls => src.take l :: take_chunks (src.drop l) ls

/-- Whether a planner call returned normally. -/
def returns_ok : Except PyError (Int × Int) → Bool
  | .ok _ => true
  | .error _ => false

/-- Whether a validation result is a raised `ValueError` (the spec's
`InvalidArgument`). -/
def is_value_error : Except PyError Unit → Bool
  | .error (.valueError _) => true
  | _ => false

/-! ### Basic list and arithmetic helpers -/

lemma READSZ_pos : 0 < READSZ := by decide

lemma take_add_split {α : Type} (l : List α) (m n : Nat) :
    l.take (m + n) = l.take m ++ (l.drop m).take n := by
  conv_lhs => rw [← List.take_append_drop m (l.take (m + n))]
  rw [List.take_take, Nat.min_eq_left (Nat.le_add_right m n), ← List.take_drop]

/-! ### The copy loop -/

/-- When the source has at least `b` unread bytes and the fuel covers the
iteration count, the loop copies exactly `b` bytes and advances the
position by `b`. -/
lemma fill_chunk_loop_eq (fuel : Nat) :
    ∀ (b : Nat) (f : SrcFile), b ≤ fuel → f.pos + b ≤ f.content.length →
      fill_chunk_loop fuel f b =
        some ((f.content.drop f.pos).take b, ⟨f.content, f.pos + b⟩) := by
  induction fuel with
  | zero =>
      intro b f hb _
      obtain rfl : b = 0 := Nat.le_zero.mp hb
      obtain ⟨ct, p⟩ := f
      simp [fill_chunk_loop]
  | succ n ih =>
      intro b f hb hav
      match b with
      | 0 =>
          obtain ⟨ct, p⟩ := f
          simp [fill_chunk_loop]
      | c + 1 =>
          obtain ⟨ct, p⟩ := f
          simp only at hav
          have hrw1 : 1 ≤ (if READSZ ≤ c + 1 then READSZ else c + 1) := by
            split
            · exact READSZ_pos
            · omega
          have hrw2 : (if READSZ ≤ c + 1 then READSZ else c + 1) ≤ c + 1 := by
            split
            · assumption
            · exact Nat.le_refl _
          set rw_amount := if READSZ ≤ c + 1 then READSZ else c + 1 with hrwdef
          have hlen : ((ct.drop p).take rw_amount).length = rw_amount := by
            simp only [List.length_take, List.length_drop]
            omega
          simp only [fill_chunk_loop, os_read, ← hrwdef, hlen]
          rw [ih (c + 1 - rw_amount) ⟨ct, p + rw_amount⟩ (by omega) (by simp only; omega)]
          simp only
          have hpos : p + rw_amount + (c + 1 - rw_amount) = p + (c + 1) := by omega
          rw [hpos]
          have hsplit : (ct.drop p).take (c + 1) =
              (ct.drop p).take rw_amount ++ ((ct.drop p).drop rw_amount).take (c + 1 - rw_amount) := by
            rw [← take_add_split]
            congr 1
            omega
          rw [List.drop_drop] at hsplit
          rw [← hsplit]

/-- When the source is already exhausted, `os.read` returns zero bytes,
`bytes_left` never changes, and the loop runs forever (returns `none`
for every fuel). -/
lemma fill_chunk_loop_spin (fuel : Nat) :
    ∀ (b : Nat) (f : SrcFile), f.content.length ≤ f.pos → 0 < b →
      fill_chunk_loop fuel f b = none := by
  induction fuel with
  | zero =>
      intro b f _ hb
      obtain ⟨c, rfl⟩ : ∃ c, b = c + 1 := ⟨b - 1, by omega⟩
      simp [fill_chunk_loop]
  | succ n ih =>
      intro b f hpos hb
      obtain ⟨c, rfl⟩ : ∃ c, b = c + 1 := ⟨b - 1, by omega⟩
      obtain ⟨ct, p⟩ := f
      simp only at hpos
      have hnil : ct.drop p = [] := List.drop_eq_nil_of_le hpos
      simp only [fill_chunk_loop, os_read, hnil, List.take_nil, List.length_nil,
        Nat.add_zero, Nat.sub_zero]
      rw [ih (c + 1) ⟨ct, p⟩ hpos (by omega)]

/-- `fill_chunk` on a positive length with enough source bytes and fuel. -/
lemma fill_chunk_eq (fuel b : Nat) (f : SrcFile) (hb : 0 < b) (hfuel : b ≤ fuel)
    (hav : f.pos + b ≤ f.content.length) :
    fill_chunk fuel f b =
      .done ((f.content.drop f.pos).take b, ⟨f.content, f.pos + b⟩) := by
  unfold fill_chunk
  rw [if_neg (by omega), fill_chunk_loop_eq fuel b f hfuel hav]

/-! ### The chunk-writing loop -/

lemma write_chunks_eq (fuel : Nat) :
    ∀ (lens : List Nat) (f : SrcFile),
      (∀ l ∈ lens, 0 < l ∧ l ≤ fuel) →
      f.pos + lens.sum ≤ f.content.length →
      write_chunks fuel f lens =
        .done (take_chunks (f.content.drop f.pos) lens, ⟨f.content, f.pos + lens.sum⟩) := by
  intro lens
  induction lens with
  | nil =>
      intro f _ _
      obtain ⟨ct, p⟩ := f
      simp [write_chunks, take_chunks]
  | cons l ls ih =>
      intro f hl hav
      obtain ⟨ct, p⟩ := f
      obtain ⟨hl0, hlf⟩ := hl l (List.mem_cons_self l ls)
      simp only [List.sum_cons] at hav
      simp only at hav ⊢
      unfold write_chunks
      rw [fill_chunk_eq fuel l ⟨ct, p⟩ hl0 hlf (by simp only; omega)]
      dsimp only
      rw [ih ⟨ct, p + l⟩ (fun x hx => hl x (List.mem_cons_of_mem l hx)) (by simp only; omega)]
      dsimp only
      simp only [take_chunks, List.sum_cons]
      rw [List.drop_drop]
      have : p + l + ls.sum = p + (l + ls.sum) := by omega
      rw [this]

/-! ### `take_chunks` facts -/

lemma take_chunks_flatten : ∀ (lens : List Nat) (src : Bytes),
    (take_chunks src lens).flatten = src.take lens.sum := by
  intro lens
  induction lens with
  | nil => intro src; simp [take_chunks]
  | cons l ls ih =>
      intro src
      simp only [take_chunks, List.flatten_cons, ih, List.sum_cons, take_add_split]

lemma take_chunks_length : ∀ (lens : List Nat) (src : Bytes),
    (take_chunks src lens).length = lens.length := by
  intro lens
  induction lens with
  | nil => intro src; rfl
  | cons l ls ih => intro src; simp [take_chunks, ih]

lemma take_chunks_map_length : ∀ (lens : List Nat) (src : Bytes),
    lens.sum ≤ src.length → (take_chunks src lens).map List.length = lens := by
  intro lens
  induction lens with
  | nil => intro src _; rfl
  | cons l ls ih =>
      intro src h
      simp only [List.sum_cons] at h
      simp only [take_chunks, List.map_cons, List.length_take, List.cons.injEq]
      refine ⟨by omega, ih (src.drop l) (by simp only [List.length_drop]; omega)⟩

/-! ### `chunk_lengths` facts -/

lemma chunk_lengths_succ (m q last : Nat) :
    chunk_lengths (m + 1) q last = List.replicate m q ++ [last] := by
  unfold chunk_lengths
  rw [List.range_succ, List.map_append]
  congr 1
  · have h : ∀ i ∈ List.range m, (if i + 1 = m + 1 then last else q) = q := by
      intro i hi
      rw [List.mem_range] at hi
      rw [if_neg (by omega)]
    rw [List.map_congr_left h, List.map_const', List.length_range]
  · simp

lemma chunk_lengths_sum (m q last : Nat) :
    (chunk_lengths (m + 1) q last).sum = m * q + last := by
  rw [chunk_lengths_succ]
  simp [List.sum_append, List.sum_const_nat]

lemma chunk_lengths_length (k q last : Nat) :
    (chunk_lengths k q last).length = k := by
  simp [chunk_lengths]

lemma chunk_lengths_mem (m q last l : Nat)
    (h : l ∈ chunk_lengths (m + 1) q last) : l = q ∨ l = last := by
  rw [chunk_lengths_succ] at h
  rcases List.mem_append.mp h with h | h
  · exact Or.inl (List.eq_of_mem_replicate h)
  · rcases List.mem_singleton.mp h with rfl
    exact Or.inr rfl

/-! ### Planner arithmetic -/

/-- For a positive chunk count, the planner returns normally with the
natural-number values `file_size / k` and `file_size - (k-1)*(file_size / k)`. -/
lemma calculate_chunk_sizes_nat (fs k : Nat) (hk : 1 ≤ k) :
    calculate_chunk_sizes fs (k : Int) =
      .ok (((fs / k : Nat) : Int), ((fs - (k - 1) * (fs / k) : Nat) : Int)) := by
  unfold calculate_chunk_sizes
  rw [if_neg (by simp only [Int.natCast_eq_zero]; omega)]
  have hq : Int.fdiv (fs : Int) (k : Int) = ((fs / k : Nat) : Int) :=
    (Int.ofNat_fdiv fs k).symm
  rw [hq]
  have hle1 : (k - 1) * (fs / k) ≤ k * (fs / k) :=
    Nat.mul_le_mul_right _ (Nat.sub_le k 1)
  have hle : (k - 1) * (fs / k) ≤ fs := le_trans hle1 (Nat.mul_div_le fs k)
  have hcast : ((fs - (k - 1) * (fs / k) : Nat) : Int) =
      (fs : Int) - ((k : Int) - 1) * ((fs / k : Nat) : Int) := by
    push_cast [Nat.cast_sub hle, Nat.cast_sub hk]
    ring
  rw [hcast]

/-- For every file size the last chunk is at least as large as the
uniform ones, and all chunks together sum to the file size. -/
lemma plan_facts (fs k : Nat) (hk : 1 ≤ k) :
    fs / k ≤ fs - (k - 1) * (fs / k) ∧
      (k - 1) * (fs / k) + (fs - (k - 1) * (fs / k)) = fs := by
  obtain ⟨m, rfl⟩ : ∃ m, k = m + 1 := ⟨k - 1, by omega⟩
  set q := fs / (m + 1) with hq
  have hmul : (m + 1) * q ≤ fs := Nat.mul_div_le fs (m + 1)
  have hle : (m + 1 - 1) * q ≤ fs := by
    simp only [Nat.add_sub_cancel]
    calc m * q ≤ (m + 1) * q := Nat.mul_le_mul_right _ (by omega)
    _ ≤ fs := hmul
  refine ⟨?_, by omega⟩
  simp only [Nat.add_sub_cancel] at hle ⊢
  have : m * q + q = (m + 1) * q := by ring
  omega

/-- The uniform chunk length is positive exactly when the file has at
least `k` bytes. -/
lemma plan_pos (fs k : Nat) (hk : 1 ≤ k) (hsz : k ≤ fs) : 1 ≤ fs / k := by
  rw [Nat.le_div_iff_mul_le (by omega)]
  omega

/-- A full plan covers the file exactly. -/
lemma chunk_lengths_sum_eq (fs k : Nat) (hk : 1 ≤ k) :
    (chunk_lengths k (fs / k) (fs - (k - 1) * (fs / k))).sum = fs := by
  obtain ⟨m, rfl⟩ : ∃ m, k = m + 1 := ⟨k - 1, by omega⟩
  obtain ⟨hql, hsum⟩ := plan_facts fs (m + 1) hk
  simp only [Nat.add_sub_cancel] at hsum ⊢
  rw [chunk_lengths_sum]
  omega

/-! ### The full pipeline on a sufficiently large file -/

/-- When the stat'd size is at least the chunk count (every planned
length positive), the args file has at least `stat_size` bytes, and the
fuel covers the largest chunk, the whole run succeeds and produces the
consecutive slices of the args file's content. -/
lemma process_eq (fuel stat_size k : Nat) (data : Bytes) (h2 : 2 ≤ k)
    (hsz : k ≤ stat_size) (hdata : stat_size ≤ data.length) (hfuel : stat_size ≤ fuel) :
    process_file_to_chunks fuel stat_size (k : Int) data =
      .done (take_chunks data
          (chunk_lengths k (stat_size / k) (stat_size - (k - 1) * (stat_size / k))),
        ⟨data, stat_size⟩) := by
  have hk1 : 1 ≤ k := by omega
  have hq1 : 1 ≤ stat_size / k := plan_pos stat_size k hk1 hsz
  have hsumeq := chunk_lengths_sum_eq stat_size k hk1
  have hqle : stat_size / k ≤ stat_size := Nat.div_le_self _ _
  have hlle : stat_size - (k - 1) * (stat_size / k) ≤ stat_size := Nat.sub_le _ _
  obtain ⟨hql, _⟩ := plan_facts stat_size k hk1
  have hmem : ∀ l ∈ chunk_lengths k (stat_size / k)
      (stat_size - (k - 1) * (stat_size / k)), 0 < l ∧ l ≤ fuel := by
    obtain ⟨m, rfl⟩ : ∃ m, k = m + 1 := ⟨k - 1, by omega⟩
    intro l hl
    rcases chunk_lengths_mem m _ _ l hl with rfl | rfl
    · exact ⟨hq1, by omega⟩
    · exact ⟨by omega, by omega⟩
  have hpos : (SrcFile.mk data 0).pos + (chunk_lengths k (stat_size / k)
      (stat_size - (k - 1) * (stat_size / k))).sum ≤ (SrcFile.mk data 0).content.length := by
    simp only [hsumeq]
    omega
  unfold process_file_to_chunks
  rw [calculate_chunk_sizes_nat stat_size k hk1]
  dsimp only
  simp only [Int.toNat_ofNat]
  rw [write_chunks_eq fuel _ ⟨data, 0⟩ hmem hpos]
  dsimp only
  simp only [List.drop_zero, Nat.zero_add, hsumeq]

/-! ### The source content is never modified -/

lemma fill_chunk_loop_content (fuel : Nat) :
    ∀ (b : Nat) (f : SrcFile) (w : Bytes) (f2 : SrcFile),
      fill_chunk_loop fuel f b = some (w, f2) → f2.content = f.content := by
  induction fuel with
  | zero =>
      intro b f w f2 h
      cases b with
      | zero =>
          simp only [fill_chunk_loop, Option.some.injEq, Prod.mk.injEq] at h
          rw [← h.2]
      | succ c => simp [fill_chunk_loop] at h
  | succ n ih =>
      intro b f w f2 h
      cases b with
      | zero =>
          simp only [fill_chunk_loop, Option.some.injEq, Prod.mk.injEq] at h
          rw [← h.2]
      | succ c =>
          simp only [fill_chunk_loop] at h
          split at h
          · exact absurd h (by simp)
          · rename_i rest f3 heq
            simp only [Option.some.injEq, Prod.mk.injEq] at h
            have h3 := ih _ _ _ _ heq
            rw [← h.2, h3]
            rfl

lemma fill_chunk_content (fuel b : Nat) (f : SrcFile) (w : Bytes) (f2 : SrcFile)
    (h : fill_chunk fuel f b = .done (w, f2)) : f2.content = f.content := by
  unfold fill_chunk at h
  split at h
  · exact absurd h (by simp)
  · split at h
    · exact absurd h (by simp)
    · rename_i r heq
      simp only [Outcome.done.injEq] at h
      obtain ⟨w2, f3⟩ := r
      rw [h] at heq
      exact fill_chunk_loop_content fuel b f w f2 heq

lemma write_chunks_content (fuel : Nat) :
    ∀ (lens : List Nat) (f : SrcFile) (cs : List Bytes) (f2 : SrcFile),
      write_chunks fuel f lens = .done (cs, f2) → f2.content = f.content := by
  intro lens
  induction lens with
  | nil =>
      intro f cs f2 h
      simp only [write_chunks, Outcome.done.injEq, Prod.mk.injEq] at h
      rw [← h.2]
  | cons l ls ih =>
      intro f cs f2 h
      unfold write_chunks at h
      split at h
      · exact absurd h (by simp)
      · exact absurd h (by simp)
      · rename_i written f3 heq1
        split at h
        · exact absurd h (by simp)
        · exact absurd h (by simp)
        · rename_i chunks f4 heq2
          simp only [Outcome.done.injEq, Prod.mk.injEq] at h
          rw [← h.2]
          calc f4.content = f3.content := ih f3 chunks f4 heq2
          _ = f.content := fill_chunk_content fuel l f written f3 heq1

/-! ### Claims -/

/-- C1, counterexample: a 1-byte source file split with `chunkCount = 2`
has uniform chunk length `1 // 2 = 0`, so the very first Chunk Writer
call raises and no chunk set is produced at all — concatenating the
produced chunks cannot reproduce the original. -/
theorem c1_counterexample :
    process_file_to_chunks 10 1 2 [0] = .raised .exception := by decide

/-- C1 (amended): for every source file whose size is at least
`chunkCount` and every `chunkCount ∈ [2, 999]`, the run succeeds, it
produces exactly `chunkCount` chunk files, and concatenating them in
index order reproduces the original file byte-for-byte.  (For sizes
below `chunkCount` the uniform length is `0` and the run raises
instead.) -/
theorem c1_amended (data : Bytes) (k : Nat) (h2 : 2 ≤ k) (h999 : k ≤ 999)
    (hsz : k ≤ data.length) :
    process_file_to_chunks data.length data.length (k : Int) data =
      .done (take_chunks data
          (chunk_lengths k (data.length / k)
            (data.length - (k - 1) * (data.length / k))),
        ⟨data, data.length⟩) ∧
    (take_chunks data
        (chunk_lengths k (data.length / k)
          (data.length - (k - 1) * (data.length / k)))).flatten = data ∧
    (take_chunks data
        (chunk_lengths k (data.length / k)
          (data.length - (k - 1) * (data.length / k)))).length = k := by
  refine ⟨process_eq _ _ _ _ h2 hsz (le_refl _) (le_refl _), ?_, ?_⟩
  · rw [take_chunks_flatten, chunk_lengths_sum_eq data.length k (by omega)]
    exact List.take_length data
  · rw [take_chunks_length, chunk_lengths_length]

/-- C1 witness: a 4-byte file split in two gives chunks `[1,2]` and
`[3,4]`, whose concatenation is the original. -/
theorem c1_witness :
    process_file_to_chunks 4 4 2 [1, 2, 3, 4] =
      .done ([[1, 2], [3, 4]], ⟨[1, 2, 3, 4], 4⟩) ∧
    [[1, 2], [3, 4]].flatten = [1, 2, 3, 4] := by
  have h := c1_amended [1, 2, 3, 4] 2 (by decide) (by decide) (by decide)
  exact ⟨h.1, h.2.1⟩

/-- C2: for every `totalFileSize ≥ 0` and `chunkCount ∈ [2, 999]` the
planner returns normally and its plan satisfies
`uniformChunkLength * (chunkCount - 1) + lastChunkLength = totalFileSize`
and `lastChunkLength ≥ uniformChunkLength`. -/
theorem c2_plan_invariant (fs k : Nat) (h2 : 2 ≤ k) (h999 : k ≤ 999) :
    returns_ok (calculate_chunk_sizes fs (k : Int)) = true ∧
    ∀ q l : Int, calculate_chunk_sizes fs (k : Int) = .ok (q, l) →
      q * ((k : Int) - 1) + l = (fs : Int) ∧ q ≤ l := by
  have hk1 : 1 ≤ k := by omega
  have hc := calculate_chunk_sizes_nat fs k hk1
  constructor
  · rw [hc]; rfl
  · intro q l h
    rw [hc] at h
    simp only [Except.ok.injEq, Prod.mk.injEq] at h
    obtain ⟨rfl, rfl⟩ := h
    obtain ⟨hql, hsum⟩ := plan_facts fs k hk1
    constructor
    · have hnat : (fs / k) * (k - 1) + (fs - (k - 1) * (fs / k)) = fs := by
        rw [Nat.mul_comm]
        exact hsum
      calc ((fs / k : Nat) : Int) * ((k : Int) - 1) + ((fs - (k - 1) * (fs / k) : Nat) : Int)
          = (((fs / k) * (k - 1) + (fs - (k - 1) * (fs / k)) : Nat) : Int) := by
            push_cast [Nat.cast_sub hk1]
            ring
      _ = (fs : Int) := by rw [hnat]
    · exact_mod_cast hql

/-- C2 witness: the 25-byte, 2-chunk plan `(12, 13)` satisfies the
invariant. -/
theorem c2_witness :
    returns_ok (calculate_chunk_sizes 25 2) = true ∧
    (12 : Int) * ((2 : Int) - 1) + 13 = 25 ∧ (12 : Int) ≤ 13 := by
  have h := c2_plan_invariant 25 2 (by decide) (by decide)
  exact ⟨h.1, h.2 12 13 (by decide)⟩

/-- C3, counterexample: on an exhausted source stream `os.read` returns
zero bytes, so one loop iteration leaves `bytes_left` unchanged at 5 —
the counter does not strictly decrease — and the loop does not
terminate (here: still running after 1000 iterations of fuel). -/
theorem c3_counterexample :
    (fill_chunk_step ⟨[], 0⟩ 5).2 = 5 ∧ fill_chunk_loop 1000 ⟨[], 0⟩ 5 = none :=
  ⟨rfl, fill_chunk_loop_spin 1000 5 ⟨[], 0⟩ (by decide) (by decide)⟩

/-- C3 (amended): `bytesRemaining` strictly decreases on every iteration
in which the source still has unread bytes, and with sufficient source
bytes the loop terminates having copied exactly the requested amount;
but on a source that returns zero bytes (exhausted before the quota) the
counter is unchanged and the loop never terminates, for any amount of
fuel. -/
theorem c3_amended (f : SrcFile) (b fuel : Nat) :
    (0 < b → f.pos < f.content.length → (fill_chunk_step f b).2 < b) ∧
    (f.content.length ≤ f.pos → 0 < b →
      (fill_chunk_step f b).2 = b ∧ fill_chunk_loop fuel f b = none) ∧
    (b ≤ fuel → f.pos + b ≤ f.content.length →
      fill_chunk_loop fuel f b =
        some ((f.content.drop f.pos).take b, ⟨f.content, f.pos + b⟩)) := by
  refine ⟨?_, ?_, fun h1 h2 => fill_chunk_loop_eq fuel b f h1 h2⟩
  · intro hb hpos
    obtain ⟨ct, p⟩ := f
    simp only at hpos
    have h1 : 1 ≤ (if READSZ ≤ b then READSZ else b) := by
      split
      · exact READSZ_pos
      · exact hb
    simp only [fill_chunk_step, os_read, List.length_take, List.length_drop]
    omega
  · intro hpos hb
    obtain ⟨ct, p⟩ := f
    simp only at hpos
    constructor
    · simp only [fill_chunk_step, os_read, List.length_take, List.length_drop]
      omega
    · exact fill_chunk_loop_spin fuel b ⟨ct, p⟩ hpos hb

/-- C3 witness: with 3 source bytes and a quota of 2, one iteration
strictly decreases the counter and the loop copies exactly 2 bytes. -/
theorem c3_witness :
    (fill_chunk_step ⟨[1, 2, 3], 0⟩ 2).2 < 2 ∧
    fill_chunk_loop 2 ⟨[1, 2, 3], 0⟩ 2 = some ([1, 2], ⟨[1, 2, 3], 2⟩) := by
  have h := c3_amended ⟨[1, 2, 3], 0⟩ 2 2
  exact ⟨h.1 (by decide) (by decide), h.2.2 (by decide) (by decide)⟩

/-- C4: `fill_chunk` raises on a zero `chunk_length` for every source
and fuel, and consequently splitting a 0-byte file with any valid chunk
count raises on the first chunk instead of producing empty chunk
files. -/
theorem c4_zero_length_rejected :
    (∀ (fuel : Nat) (f : SrcFile), fill_chunk fuel f 0 = .raised .exception) ∧
    (∀ (fuel k : Nat) (data : Bytes), 2 ≤ k → k ≤ 999 →
      process_file_to_chunks fuel 0 (k : Int) data = .raised .exception) := by
  constructor
  · intro fuel f
    rfl
  · intro fuel k data h2 h999
    have hc := calculate_chunk_sizes_nat 0 k (by omega)
    unfold process_file_to_chunks
    rw [hc]
    dsimp only
    simp only [Nat.zero_div, Nat.mul_zero, Nat.sub_zero, Int.toNat_ofNat]
    obtain ⟨m, rfl⟩ : ∃ m, k = m + 1 + 1 := ⟨k - 2, by omega⟩
    rw [chunk_lengths_succ, List.replicate_succ, List.cons_append]
    rfl

/-- C4 witness: concrete instances of both parts. -/
theorem c4_witness :
    fill_chunk 5 ⟨[1], 0⟩ 0 = .raised .exception ∧
    process_file_to_chunks 7 0 2 [1] = .raised .exception :=
  ⟨c4_zero_length_rejected.1 5 ⟨[1], 0⟩,
   c4_zero_length_rejected.2 7 2 [1] (by decide) (by decide)⟩

/-- C5: the planner returns exactly
`uniformChunkLength = totalFileSize / chunkCount` (floor) and
`lastChunkLength = totalFileSize - uniformChunkLength * (chunkCount - 1)`;
in particular a 25-byte file with 2 chunks yields 12 and 13 bytes, and
the chunk files are named `name.CHUNK001` and `name.CHUNK002`. -/
theorem c5_planner_formula (fs k : Nat) (h2 : 2 ≤ k) :
    calculate_chunk_sizes fs (k : Int) =
      .ok (((fs / k : Nat) : Int),
        (fs : Int) - ((fs / k : Nat) : Int) * ((k : Int) - 1)) ∧
    calculate_chunk_sizes 25 2 = .ok (12, 13) ∧
    chunk_name "name" 1 = "name.CHUNK001" ∧
    chunk_name "name" 2 = "name.CHUNK002" := by
  have hk1 : 1 ≤ k := by omega
  refine ⟨?_, by decide, by decide, by decide⟩
  rw [calculate_chunk_sizes_nat fs k hk1]
  have hle1 : (k - 1) * (fs / k) ≤ k * (fs / k) :=
    Nat.mul_le_mul_right _ (Nat.sub_le k 1)
  have hle : (k - 1) * (fs / k) ≤ fs := le_trans hle1 (Nat.mul_div_le fs k)
  have hcast : ((fs - (k - 1) * (fs / k) : Nat) : Int) =
      (fs : Int) - ((fs / k : Nat) : Int) * ((k : Int) - 1) := by
    push_cast [Nat.cast_sub hle, Nat.cast_sub hk1]
    ring
  rw [hcast]

/-- C5 witness: the 25-byte scenario. -/
theorem c5_witness :
    calculate_chunk_sizes 25 2 = .ok (12, 13) ∧
    chunk_name "name" 1 = "name.CHUNK001" := by
  have h := c5_planner_formula 25 2 (by decide)
  exact ⟨h.2.1, h.2.2.1⟩

/-- C6, counterexample: `calculate_chunk_sizes` has no chunk-count
guard: with `chunkCount = 0` it raises `ZeroDivisionError` (not the
claimed `InvalidArgument`), and with `chunkCount = -1` it raises nothing
at all and returns a value. -/
theorem c6_counterexample :
    calculate_chunk_sizes 25 0 = .error .zeroDivisionError ∧
    calculate_chunk_sizes 25 (-1) = .ok (-25, -25) := by
  exact ⟨rfl, by decide⟩

/-- C6 (amended): the planner itself performs no chunk-count
validation: `chunkCount = 0` raises `ZeroDivisionError` for every file
size, a negative `chunkCount` returns a value, and the
`InvalidArgument` rejection of `chunkCount < 2` is performed only by
`validate_args`, upstream of the planner. -/
theorem c6_amended :
    (∀ fs : Nat, calculate_chunk_sizes fs 0 = .error .zeroDivisionError) ∧
    (∀ (fs : Nat) (n : Int), n < 0 → returns_ok (calculate_chunk_sizes fs n) = true) ∧
    (∀ (fsv : Fs) (n : Int) (fname : String) (odir : Option String), n < 2 →
      is_value_error (validate_args fsv n fname odir).result = true) := by
  refine ⟨fun fs => rfl, ?_, ?_⟩
  · intro fs n hn
    unfold calculate_chunk_sizes
    rw [if_neg (by omega)]
    rfl
  · intro fsv n fname odir hn
    unfold validate_args
    rw [if_pos (by simp only [MIN_CHUNKS_ALLOWED]; omega)]
    rfl

/-- C6 witness: concrete instances of the amended behaviour. -/
theorem c6_witness :
    calculate_chunk_sizes 7 0 = .error .zeroDivisionError ∧
    returns_ok (calculate_chunk_sizes 7 (-3)) = true ∧
    is_value_error
      (validate_args ⟨true, true, true, 7, true, true, true⟩ 0 "f" none).result = true :=
  ⟨c6_amended.1 7, c6_amended.2.1 7 (-3) (by decide),
   c6_amended.2.2 ⟨true, true, true, 7, true, true, true⟩ 0 "f" none (by decide)⟩

/-- C7: any `numchunks` outside `[2, 999]` makes `validate_args` raise
a `ValueError` (the spec's `InvalidArgument`) with an empty filesystem
access trace — the rejection happens before any filesystem access. -/
theorem c7_numchunks_validated_first (fsv : Fs) (n : Int) (fname : String)
    (odir : Option String) (h : n < 2 ∨ 999 < n) :
    is_value_error (validate_args fsv n fname odir).result = true ∧
    (validate_args fsv n fname odir).accesses = [] := by
  rcases h with h | h
  · unfold validate_args
    rw [if_pos (by simp only [MIN_CHUNKS_ALLOWED]; omega)]
    exact ⟨rfl, rfl⟩
  · unfold validate_args
    rw [if_neg (by simp only [MIN_CHUNKS_ALLOWED]; omega),
      if_pos (by simp only [MAX_CHUNKS_ALLOWED]; omega)]
    exact ⟨rfl, rfl⟩

/-- C7 witness: `chunkCount = 1000` is rejected with no filesystem
access. -/
theorem c7_witness :
    is_value_error
      (validate_args ⟨true, true, true, 0, true, true, true⟩ 1000 "file" none).result =
      true ∧
    (validate_args ⟨true, true, true, 0, true, true, true⟩ 1000 "file" none).accesses =
      [] :=
  c7_numchunks_validated_first ⟨true, true, true, 0, true, true, true⟩ 1000 "file" none
    (Or.inr (by decide))

/-- C8: `process_file_to_chunks` reads the bytes from `args.filename`
(the `data` parameter of the embedding) while computing the chunk sizes
from `os.stat(file_name)` (the `stat_size` parameter): the chunk
contents are consecutive slices of the args file, and the chunk sizes
are a function of `stat_size` alone. -/
theorem c8_bytes_from_args_file (stat_size k : Nat) (data : Bytes)
    (h2 : 2 ≤ k) (h999 : k ≤ 999) (hk : k ≤ stat_size)
    (hdata : stat_size ≤ data.length) :
    process_file_to_chunks stat_size stat_size (k : Int) data =
      .done (take_chunks data
          (chunk_lengths k (stat_size / k) (stat_size - (k - 1) * (stat_size / k))),
        ⟨data, stat_size⟩) ∧
    (take_chunks data
        (chunk_lengths k (stat_size / k)
          (stat_size - (k - 1) * (stat_size / k)))).map List.length =
      chunk_lengths k (stat_size / k) (stat_size - (k - 1) * (stat_size / k)) ∧
    (take_chunks data
        (chunk_lengths k (stat_size / k)
          (stat_size - (k - 1) * (stat_size / k)))).flatten = data.take stat_size := by
  refine ⟨process_eq _ _ _ _ h2 hk hdata (le_refl _), ?_, ?_⟩
  · apply take_chunks_map_length
    rw [chunk_lengths_sum_eq stat_size k (by omega)]
    exact hdata
  · rw [take_chunks_flatten, chunk_lengths_sum_eq stat_size k (by omega)]

/-- C8 witness: with a stat'd size of 2 but an args file of 3 bytes,
the chunks hold the first two args-file bytes in 1-byte chunks. -/
theorem c8_witness :
    process_file_to_chunks 2 2 2 [7, 8, 9] = .done ([[7], [8]], ⟨[7, 8, 9], 2⟩) ∧
    [[7], [8]].flatten = List.take 2 [7, 8, 9] := by
  have h := c8_bytes_from_args_file 2 2 [7, 8, 9] (by decide) (by decide) (by decide)
    (by decide)
  exact ⟨h.1, h.2.2⟩

/-- C9: every successful split leaves the source file's content exactly
as it was — the source descriptor is only ever read from. -/
theorem c9_source_untouched (fuel stat_size : Nat) (n : Int) (data : Bytes)
    (chunks : List Bytes) (f2 : SrcFile)
    (h : process_file_to_chunks fuel stat_size n data = .done (chunks, f2)) :
    f2.content = data := by
  unfold process_file_to_chunks at h
  split at h
  · exact absurd h (by simp)
  · exact write_chunks_content fuel _ ⟨data, 0⟩ chunks f2 h

/-- C9 witness: a concrete successful split whose final source content
is the original. -/
theorem c9_witness : (SrcFile.mk [1, 2, 3, 4] 4).content = [1, 2, 3, 4] :=
  c9_source_untouched 4 4 2 [1, 2, 3, 4] [[1, 2], [3, 4]] ⟨[1, 2, 3, 4], 4⟩ (by decide)

/-- C10, counterexample: a 1-byte file with `chunkCount = 2` passes all
fatal validation checks and gets the small-chunk warning (per-chunk
size `0 < 10 MiB`), but the split then raises on the zero-length first
chunk instead of completing successfully. -/
theorem c10_counterexample :
    (validate_args ⟨true, true, true, 1, false, false, false⟩ 2 "f" none).result =
      .ok () ∧
    (validate_args ⟨true, true, true, 1, false, false, false⟩ 2 "f" none).warned =
      true ∧
    process_file_to_chunks 10 1 2 [37] = .raised .exception := by
  exact ⟨by decide, by decide, by decide⟩

/-- C10 (amended): for every input passing the fatal validation checks
(file exists, is a regular file, is readable, and — when an output
directory is given — it exists, is a directory and is writable) where
the per-chunk size is below 10 MiB, the small-chunk warning is emitted
and validation still returns successfully; the split itself then
completes successfully provided the per-chunk size is at least one byte
(file size ≥ chunk count); for smaller files the warning is followed by
the zero-length-chunk exception. -/
theorem c10_amended (fsv : Fs) (k : Nat) (fname : String) (odir : Option String)
    (data : Bytes) (h2 : 2 ≤ k) (h999 : k ≤ 999)
    (hex : fsv.fileExists = true) (hf : fsv.isFile = true) (hr : fsv.readable = true)
    (hdir : str_option_truthy odir = true →
      fsv.dirExists = true ∧ fsv.isDir = true ∧ fsv.dirWritable = true)
    (hsmall : fsv.fileSize / k < MIN_CHUNK_SZ) :
    (validate_args fsv (k : Int) fname odir).result = .ok () ∧
    (validate_args fsv (k : Int) fname odir).warned = true ∧
    (k ≤ fsv.fileSize → fsv.fileSize ≤ data.length →
      process_file_to_chunks fsv.fileSize fsv.fileSize (k : Int) data =
        .done (take_chunks data
            (chunk_lengths k (fsv.fileSize / k)
              (fsv.fileSize - (k - 1) * (fsv.fileSize / k))),
          ⟨data, fsv.fileSize⟩)) := by
  have hval : (validate_args fsv (k : Int) fname odir).result = .ok () ∧
      (validate_args fsv (k : Int) fname odir).warned = true := by
    unfold validate_args
    rw [if_neg (by simp only [MIN_CHUNKS_ALLOWED]; omega),
      if_neg (by simp only [MAX_CHUNKS_ALLOWED]; omega),
      if_neg (by simp [hex]), if_neg (by simp [hf]), if_neg (by simp [hr])]
    by_cases ht : str_option_truthy odir = true
    · obtain ⟨hde, hdi, hdw⟩ := hdir ht
      rw [if_pos ht, if_neg (by simp [hde]), if_neg (by simp [hdi]),
        if_neg (by simp [hdw])]
      simp only [Int.toNat_ofNat, decide_eq_true_eq]
      exact ⟨trivial, hsmall⟩
    · rw [if_neg ht]
      simp only [Int.toNat_ofNat, decide_eq_true_eq]
      exact ⟨trivial, hsmall⟩
  exact ⟨hval.1, hval.2, fun hk hd => process_eq _ _ _ _ h2 hk hd (le_refl _)⟩

/-- C10 witness: a 4-byte file in 2 chunks (per-chunk 2 bytes, far below
10 MiB) with a valid, writable output directory: the warning fires,
validation succeeds, and the split completes. -/
theorem c10_witness :
    (validate_args ⟨true, true, true, 4, true, true, true⟩ 2 "f" (some "out")).result =
      .ok () ∧
    (validate_args ⟨true, true, true, 4, true, true, true⟩ 2 "f" (some "out")).warned =
      true ∧
    process_file_to_chunks 4 4 2 [5, 6, 7, 8] =
      .done ([[5, 6], [7, 8]], ⟨[5, 6, 7, 8], 4⟩) := by
  have h := c10_amended ⟨true, true, true, 4, true, true, true⟩ 2 "f" (some "out")
    [5, 6, 7, 8] (by decide) (by decide) rfl rfl rfl (fun _ => ⟨rfl, rfl, rfl⟩)
    (by decide)
  exact ⟨h.1, h.2.1, h.2.2 (by decide) (by decide)⟩

end FSplit
